import Mathlib

/-!
Shallow embedding of `src/plugin.py` (custom_commands_plugin): a trigger →
response table backed by a JSON file, an admin allow-list check, four chat
commands (Add / Delete / List / Handle-dynamic) and a one-shot
"stop thinking" signal set shared between a command and an event handler.

Python strings are modelled as Lean `String` (for the table and command
layer) and as `List Char` (for the character-level regex model of the Add
pattern).  A Python `dict[str, str]` is an insertion-ordered association
list with unique keys.  The filesystem is modelled by the content of the
single store file; an `IOError` raised by `open`/read/write is modelled by
an explicit boolean input.
-/

set_option autoImplicit false

namespace CustomCommands

/-! ### ThinkingInterceptor (plugin.py lines 26-48) -/

/-- Model of `ThinkingInterceptor.set_intercept`: adds `stream_id` to the
`_intercept_flags : set[str]`. -/
def setIntercept (streamId : String) (flags : Finset String) : Finset String :=
  insert streamId flags

/-- Model of `ThinkingInterceptor.should_intercept_and_clear`: if the id is
in the set it is removed and `true` is returned, else the set is unchanged
and `false` is returned. -/
def shouldInterceptAndClear (streamId : String) (flags : Finset String) :
    Finset String × Bool :=
  if streamId ∈ flags then (flags.erase streamId, true) else (flags, false)

/-! ### CommandDataManager (plugin.py lines 55-103) -/

/-- Key membership `trigger in self.commands` of the Python dict. -/
def hasKey (t : List (String × String)) (k : String) : Bool :=
  t.any (fun p => p.1 == k)

/-- Model of `self.commands.get(trigger)`: value of the first (and, in any
dict-reachable state, only) entry with the given key. -/
def tableGet (t : List (String × String)) (k : String) : Option String :=
  (t.find? (fun p => p.1 == k)).map Prod.snd

/-- Python dict assignment `self.commands[trigger] = response`: replaces the
value in place if the key is present (keeping its position), else appends
the new pair at the end. -/
def dictInsert (t : List (String × String)) (k v : String) :
    List (String × String) :=
  if hasKey t k then t.map (fun p => if p.1 == k then (k, v) else p)
  else t ++ [(k, v)]

/-- Python `del self.commands[trigger]`: removes the (unique) entry with the
given key; modelled as removal of the first matching entry. -/
def dictDelete (t : List (String × String)) (k : String) :
    List (String × String) :=
  t.eraseP (fun p => p.1 == k)

/-- Content of the store file `custom_commands.json`, split into the three
classes the source's error handling distinguishes: a JSON object of strings
(which `json.load` decodes to the dict `t`); UTF-8-decodable bytes that are
not valid JSON (raising `json.JSONDecodeError`, which the except clause
catches); and bytes that do not decode as UTF-8 (raising
`UnicodeDecodeError`, which `except (json.JSONDecodeError, IOError)` does
NOT catch). -/
inductive FileContent where
  | table (t : List (String × String))
  | invalid
  | notUtf8
deriving DecidableEq

/-- The relevant slice of the filesystem: the content of the store file at
the manager's path; `none` means the file is absent. -/
structure FS where
  file : Option FileContent
deriving DecidableEq

/-- `CommandDataManager` state: the in-memory table `commands` and whether
`file_path` has been assigned (it is `None` until `load` runs). -/
structure Manager where
  commands : List (String × String)
  filePathSet : Bool
deriving DecidableEq

/-- Model of `CommandDataManager.save` (lines 79-86): returns at once when
`file_path` is unset; otherwise writes the serialized table, unless the
write raises `IOError` (`ioErr`), which is logged and leaves the file as
it was. -/
def save (m : Manager) (fs : FS) (ioErr : Bool) : FS :=
  if !m.filePathSet then fs
  else if ioErr then fs
  else { file := some (FileContent.table m.commands) }

/-- What a call to `load` leaves behind: the manager, the file, and whether
an exception propagated out of `load` to the caller. -/
structure LoadOutcome where
  manager : Manager
  fs : FS
  raised : Bool
deriving DecidableEq

/-- Model of `CommandDataManager.load` (lines 65-77): sets `file_path`; if
the file exists it is opened and parsed, where a read `IOError` (`readErr`)
or a `json.JSONDecodeError` is caught and resets `commands` to the empty
dict, while content that does not decode as UTF-8 makes `json.load` raise
`UnicodeDecodeError` — not listed in
`except (json.JSONDecodeError, IOError)` — so that exception escapes to
the caller (`raised = true`) with `commands` left unchanged; if the file
is absent, `save` is called (its write may itself fail, `writeErr`) and
`commands` is left as it was. -/
def load (m : Manager) (fs : FS) (readErr writeErr : Bool) : LoadOutcome :=
  let m' : Manager := { m with filePathSet := true }
  match fs.file with
  | some content =>
      if readErr then ⟨{ m' with commands := [] }, fs, false⟩
      else
        match content with
        | FileContent.table t => ⟨{ m' with commands := t }, fs, false⟩
        | FileContent.invalid => ⟨{ m' with commands := [] }, fs, false⟩
        | FileContent.notUtf8 => ⟨m', fs, true⟩
  | none => ⟨m', save m' fs writeErr, false⟩

/-- Model of `CommandDataManager.add` (lines 91-93): upsert then `save`. -/
def add (m : Manager) (fs : FS) (ioErr : Bool) (trigger response : String) :
    Manager × FS :=
  let m' : Manager := { m with commands := dictInsert m.commands trigger response }
  (m', save m' fs ioErr)

/-- Model of `CommandDataManager.delete` (lines 95-100): if the trigger is a
key, remove it, `save`, and return `true`; else return `false` with no
mutation and no save. -/
def delete (m : Manager) (fs : FS) (ioErr : Bool) (trigger : String) :
    Manager × FS × Bool :=
  if hasKey m.commands trigger then
    let m' : Manager := { m with commands := dictDelete m.commands trigger }
    (m', save m' fs ioErr, true)
  else (m, fs, false)

/-- Model of `CommandDataManager.get_all_triggers`. -/
def getAllTriggers (m : Manager) : List String :=
  m.commands.map Prod.fst

/-! ### Permission check (plugin.py lines 129-134) -/

/-- Model of `CustomCommandBase._check_admin_permission`:
`bool(admin_ids and user_id in admin_ids)` — true iff the configured
allow-list is non-empty (Python truthiness) and contains the caller id. -/
def isAdmin (adminIds : List String) (userId : String) : Bool :=
  !adminIds.isEmpty && adminIds.contains userId

/-! ### Command components (plugin.py lines 137-249) -/

/-- A message emitted through the host delivery primitives: `send_text`,
`send_image` (base64 payload) and `send_forward` (header text plus the
newline-joined listing). -/
inductive Sent where
  | text (s : String)
  | image (b64 : String)
  | forward (botName : String) (header : String) (content : String)
deriving DecidableEq

/-- The `Tuple[bool, Optional[str], bool]` a command's `execute` returns:
success flag, reason string, and the "consumed/intercept" flag. -/
structure CmdResult where
  success : Bool
  reason : Option String
  consumed : Bool
deriving DecidableEq

/-- The process-wide mutable state a command touches: the data manager, the
interceptor's flag set, and the store file. -/
structure PState where
  manager : Manager
  flags : Finset String
  fs : FS

/-- Python `str.lower()`, character-wise (ASCII case mapping, which covers
every character the extension check can look at). -/
def strLower (s : String) : String :=
  String.mk (s.data.map Char.toLower)

/-- Python `str.endswith(t)` for a single suffix. -/
def strEndsWith (s t : String) : Bool :=
  t.data.isSuffixOf s.data

/-- Python `str.strip()`: removes leading and trailing whitespace. -/
def strTrim (s : String) : String :=
  String.mk
    (((s.data.dropWhile Char.isWhitespace).reverse.dropWhile Char.isWhitespace).reverse)

/-- The fixed tuple `image_extensions` of plugin.py line 230. -/
def imageExtensions : List String := [".png", ".jpg", ".jpeg", ".gif", ".webp"]

/-- Model of `response_value.lower().endswith(image_extensions)`
(plugin.py line 231): a tuple argument of `str.endswith` means "ends with
any of". -/
def isImageRef (s : String) : Bool :=
  imageExtensions.any (fun ext => strEndsWith (strLower s) ext)

/-- Model of `AddCustomCommand.execute` (lines 143-162).  Inputs: the
configured allow-list, the caller id, the two regex captures (with the
`.strip()` applied inside, as in the source), the stream id, the state,
and whether the file write raises `IOError`. -/
def addExecute (adminIds : List String) (userId trigGroup respGroup streamId : String)
    (st : PState) (ioErr : Bool) : PState × CmdResult × List Sent :=
  if !isAdmin adminIds userId then
    (st, ⟨false, some ("用户 " ++ userId ++ " 尝试添加命令失败 (无权限)"), true⟩,
     [Sent.text "❌ 你没有权限执行此管理员命令"])
  else
    let trigger := strTrim trigGroup
    let response := strTrim respGroup
    if trigger = "" ∨ response = "" then
      (st, ⟨false, some "格式错误", true⟩,
       [Sent.text "❌ 命令格式错误，请使用：.问：触发词答：回复内容"])
    else
      let mfs := add st.manager st.fs ioErr trigger response
      ({ manager := mfs.1, flags := setIntercept streamId st.flags, fs := mfs.2 },
       ⟨true, some "添加成功", true⟩,
       [Sent.text ("✅ 成功添加自定义命令！\n触发词：" ++ trigger ++ "\n回复内容：" ++ response)])

/-- Model of `DeleteCustomCommand.execute` (lines 171-185). -/
def deleteExecute (adminIds : List String) (userId trigGroup streamId : String)
    (st : PState) (ioErr : Bool) : PState × CmdResult × List Sent :=
  if !isAdmin adminIds userId then
    (st, ⟨false, some ("用户 " ++ userId ++ " 尝试删除命令失败 (无权限)"), true⟩,
     [Sent.text "❌ 你没有权限执行此管理员命令"])
  else
    let trigger := strTrim trigGroup
    let dfs := delete st.manager st.fs ioErr trigger
    if dfs.2.2 then
      ({ manager := dfs.1, flags := setIntercept streamId st.flags, fs := dfs.2.1 },
       ⟨true, some "删除成功", true⟩,
       [Sent.text ("✅ 成功删除了自定义命令：\x27" ++ trigger ++ "\x27")])
    else
      (st, ⟨false, some "命令未找到", true⟩,
       [Sent.text ("❌ 未找到要删除的命令：\x27" ++ trigger ++ "\x27")])

/-- Model of `ListCustomCommands.execute` (lines 194-214): no permission
check; sends an "empty" text or a forwarded two-part listing, and always
arms the interceptor and reports success. -/
def listExecute (pfx botName streamId : String) (st : PState) :
    PState × CmdResult × List Sent :=
  let triggers := getAllTriggers st.manager
  let sent :=
    if triggers.isEmpty then [Sent.text "🤷‍♀️ 还没有添加任何自定义命令"]
    else
      [Sent.forward botName "📋 可用的自定义命令列表："
        (String.intercalate "\n" (triggers.map (fun t => "▪️ " ++ pfx ++ t)))]
  ({ st with flags := setIntercept streamId st.flags },
   ⟨true, some "列表已发送", true⟩, sent)

/-- Model of `HandleDynamicCustomCommand.execute` (lines 223-249).  No
permission check.  `imgExists` models `image_path.exists()` for the
resolved path, `imgB64` the base64 of the file bytes, and `sendOk` whether
the `read_bytes`/`send_image` block completes without an exception. -/
def handleExecute (trigGroup streamId : String) (imgExists : Bool)
    (imgB64 : String) (sendOk : Bool) (imageBaseDir : String)
    (st : PState) : PState × CmdResult × List Sent :=
  let trigger := strTrim trigGroup
  match tableGet st.manager.commands trigger with
  | none => (st, ⟨false, some "非自定义命令，跳过", false⟩, [])
  | some responseValue =>
    if isImageRef responseValue then
      if !imgExists then
        (st, ⟨false, some "图片文件不存在", true⟩,
         [Sent.text ("❌ 配置错误：在 \x27" ++ imageBaseDir ++ "\x27 目录中找不到图片 \x27"
            ++ responseValue ++ "\x27")])
      else if !sendOk then
        (st, ⟨false, some "发送图片失败", true⟩,
         [Sent.text "❌ 发送图片时发生内部错误"])
      else
        ({ st with flags := setIntercept streamId st.flags },
         ⟨true, some "动态命令执行成功", true⟩, [Sent.image imgB64])
    else
      ({ st with flags := setIntercept streamId st.flags },
       ⟨true, some "动态命令执行成功", true⟩, [Sent.text responseValue])

/-! ### The Add command pattern (plugin.py line 141)

`^{escaped_prefix}问：(?P<trigger>.+?)答：(?P<response>.+)$` with default
`re` flags, modelled at character level on `List Char`, anchored over the
whole input: `.` matches any character except a newline, the lazy group
`.+?` backtracks by growing from length 1, and the greedy `(?P<response>.+)$`
accepts exactly a non-empty newline-free remainder running to the end. -/

/-- The `.` metacharacter under default flags: any character but `\n`. -/
def dotChar (c : Char) : Bool := c != '\n'

/-- The literal separator `答：` of the Add pattern. -/
def marker : List Char := ['答', '：']

/-- Whether a remainder can be matched by `(?P<response>.+)$`: non-empty
and free of newlines. -/
def validResp (l : List Char) : Bool := !l.isEmpty && l.all dotChar

/-- Strips the literal `答：` from the front, if present. -/
def dropMarker (l : List Char) : Option (List Char) :=
  match l with
  | a :: b :: rest => if a = '答' ∧ b = '：' then some rest else none
  | _ => none

/-- Backtracking match of `(?P<trigger>.+?)答：(?P<response>.+)$` against
`l`: the lazy trigger consumes one non-newline character, then tries the
marker at each subsequent position, shortest trigger first; a candidate
split is kept only when the remainder is a valid response. -/
def matchBody : List Char → Option (List Char × List Char)
  | [] => none
  | c :: rest =>
    if dotChar c then
      match dropMarker rest with
      | some resp =>
        if validResp resp then some ([c], resp)
        else (matchBody rest).map (fun tr => (c :: tr.1, tr.2))
      | none => (matchBody rest).map (fun tr => (c :: tr.1, tr.2))
    else none

/-- The full Add pattern, anchored on the whole input: the configured
(escaped, hence literal) prefix, the literal `问：`, then the two
captures. -/
def addPatternMatch (pfx input : List Char) : Option (List Char × List Char) :=
  if input.take pfx.length = pfx then
    match input.drop pfx.length with
    | a :: b :: body => if a = '问' ∧ b = '：' then matchBody body else none
    | _ => none
  else none

/-- Number of positions of `l` at which the literal `答：` occurs. -/
def markerCount : List Char → Nat
  | [] => 0
  | c :: rest =>
    (if (dropMarker (c :: rest)).isSome then 1 else 0) + markerCount rest

end CustomCommands

namespace CustomCommands


/-! ### Theorems -/

theorem hasKey_cons (a : String × String) (l : List (String × String))
    (k : String) : hasKey (a :: l) k = (a.1 == k || hasKey l k) := by
  simp [hasKey]

theorem hasKey_iff_mem (l : List (String × String)) (k : String) :
    hasKey l k = true ↔ k ∈ l.map Prod.fst := by
  simp [hasKey, List.any_eq_true, List.mem_map]

theorem keys_dictInsert (l : List (String × String)) (k v : String) :
    (dictInsert l k v).map Prod.fst
      = (if hasKey l k then l.map Prod.fst else l.map Prod.fst ++ [k]) := by
  by_cases h : hasKey l k
  · simp only [dictInsert, h, if_true, List.map_map]
    refine List.map_congr_left (fun p hp => ?_)
    by_cases hk : p.1 = k
    · simp [hk]
    · simp [hk]
  · simp [dictInsert, h]

theorem nodup_keys_dictInsert (l : List (String × String)) (k v : String)
    (h : (l.map Prod.fst).Nodup) : ((dictInsert l k v).map Prod.fst).Nodup := by
  rw [keys_dictInsert]
  by_cases hk : hasKey l k
  · simpa [hk]
  · have hnot : k ∉ l.map Prod.fst := fun hc =>
      by simp [(hasKey_iff_mem l k).2 hc] at hk
    simp [hk, List.nodup_append, h, hnot]

theorem hasKey_dictInsert (l : List (String × String)) (k v : String) :
    hasKey (dictInsert l k v) k = true := by
  rw [hasKey_iff_mem, keys_dictInsert]
  by_cases hk : hasKey l k
  · simpa [hk] using (hasKey_iff_mem l k).1 hk
  · simp [hk]

theorem countP_key_of_nodup (l : List (String × String)) (k : String)
    (h : (l.map Prod.fst).Nodup) :
    l.countP (fun p => p.1 == k) = if hasKey l k then 1 else 0 := by
  induction l with
  | nil => simp [hasKey]
  | cons a l ih =>
    rw [List.map_cons, List.nodup_cons] at h
    rw [List.countP_cons]
    by_cases hk : a.1 = k
    · have hnot : hasKey l k = false := by
        by_contra hc
        rw [Bool.not_eq_false] at hc
        exact h.1 (hk ▸ (hasKey_iff_mem l k).1 hc)
      simp [hasKey_cons, hk, hnot, ih h.2]
    · simp [hasKey_cons, hk, ih h.2]

theorem countP_dictInsert (l : List (String × String)) (k v : String)
    (h : (l.map Prod.fst).Nodup) :
    (dictInsert l k v).countP (fun p => p.1 == k) = 1 := by
  rw [countP_key_of_nodup _ _ (nodup_keys_dictInsert l k v h),
    hasKey_dictInsert]
  simp

theorem find?_replace (l : List (String × String)) (k v : String) :
    (l.map (fun p => if p.1 == k then (k, v) else p)).find? (fun p => p.1 == k)
      = if hasKey l k then some (k, v) else none := by
  induction l with
  | nil => simp [hasKey]
  | cons a l ih =>
    rw [List.map_cons]
    by_cases hk : a.1 = k
    · rw [List.find?_cons_of_pos _ (by simp [hk])]
      simp [hasKey_cons, hk]
    · rw [List.find?_cons_of_neg _ (by simp [hk]), ih]
      simp [hasKey_cons, hk]

theorem find?_key_eq_none (l : List (String × String)) (k : String)
    (h : ¬hasKey l k = true) : l.find? (fun p => p.1 == k) = none := by
  rw [List.find?_eq_none]
  intro p hp
  simp only [hasKey, List.any_eq_true] at h
  simp only [Bool.not_eq_true]
  by_contra hc
  rw [Bool.not_eq_false] at hc
  exact h ⟨p, hp, hc⟩

theorem tableGet_dictInsert (l : List (String × String)) (k v : String) :
    tableGet (dictInsert l k v) k = some v := by
  by_cases h : hasKey l k
  · rw [tableGet, dictInsert, if_pos h, find?_replace l k v, if_pos h]
    rfl
  · rw [tableGet, dictInsert, if_neg h, List.find?_append, find?_key_eq_none l k h]
    simp

/-- C8: after `set_intercept s`, the first `should_intercept_and_clear s`
returns true and removes `s` from the set, a second immediate call returns
false; a check on an id not in the set returns false and leaves the set
unchanged. -/
theorem interceptor_one_shot :
    (∀ (s : String) (flags : Finset String),
       (shouldInterceptAndClear s (setIntercept s flags)).2 = true ∧
       (shouldInterceptAndClear s (setIntercept s flags)).1
         = (setIntercept s flags).erase s ∧
       (shouldInterceptAndClear s
          (shouldInterceptAndClear s (setIntercept s flags)).1).2 = false ∧
       (shouldInterceptAndClear s
          (shouldInterceptAndClear s (setIntercept s flags)).1).1
         = (shouldInterceptAndClear s (setIntercept s flags)).1) ∧
    (∀ (s : String) (flags : Finset String), s ∉ flags →
       shouldInterceptAndClear s flags = (flags, false)) := by
  constructor
  · intro s flags
    have hmem : s ∈ setIntercept s flags := Finset.mem_insert_self s flags
    have hnot : s ∉ (setIntercept s flags).erase s := Finset.not_mem_erase s _
    simp [shouldInterceptAndClear, hmem, hnot]
  · intro s flags h
    simp [shouldInterceptAndClear, h]

theorem interceptor_one_shot_witness :
    "s2" ∉ ({"s1"} : Finset String) ∧
    shouldInterceptAndClear "s2" {"s1"} = ({"s1"}, false) :=
  ⟨by decide, interceptor_one_shot.2 "s2" {"s1"} (by decide)⟩

/-- C10: while `file_path` is unset (i.e. before `load` has run), `save`
returns at once without writing, so `add` and `delete` mutate only the
in-memory table and leave the file untouched, for any I/O-error input. -/
theorem save_noop_before_load :
    (∀ (m : Manager) (fs : FS) (io : Bool), m.filePathSet = false →
       save m fs io = fs) ∧
    (∀ (m : Manager) (fs : FS) (io : Bool) (t r : String), m.filePathSet = false →
       (add m fs io t r).2 = fs ∧
       (add m fs io t r).1.commands = dictInsert m.commands t r) ∧
    (∀ (m : Manager) (fs : FS) (io : Bool) (t : String), m.filePathSet = false →
       (delete m fs io t).2.1 = fs ∧
       (delete m fs io t).1.commands
         = (if hasKey m.commands t then dictDelete m.commands t else m.commands)) := by
  refine ⟨fun m fs io h => by simp [save, h], fun m fs io t r h => ?_,
    fun m fs io t h => ?_⟩
  · constructor
    · simp [add, save, h]
    · simp [add]
  · by_cases hk : hasKey m.commands t
    · simp [delete, hk, save, h]
    · simp [delete, hk]

theorem save_noop_before_load_witness :
    (Manager.mk [("a", "1")] false).filePathSet = false ∧
    save (Manager.mk [("a", "1")] false) (FS.mk none) false = FS.mk none :=
  ⟨rfl, save_noop_before_load.1 (Manager.mk [("a", "1")] false) (FS.mk none)
    false rfl⟩

/-- C4 counterexample: a store file whose bytes do not decode as UTF-8 is
"content that is not valid JSON", yet `load` on it lets the
`UnicodeDecodeError` escape to the caller (`raised = true`) and leaves the
table unchanged instead of resetting it to empty — refuting the claim that
every existing non-JSON file makes `load` reset the table and return
normally. -/
theorem load_invalid_counterexample :
    (load (Manager.mk [("a", "1")] false) (FS.mk (some FileContent.notUtf8))
        false false).raised = true ∧
    (load (Manager.mk [("a", "1")] false) (FS.mk (some FileContent.notUtf8))
        false false).manager.commands = [("a", "1")] :=
  ⟨rfl, rfl⟩

/-- C4 (amended): when the store file exists, a read I/O error or content
that decodes as UTF-8 but is not valid JSON (`json.JSONDecodeError`) makes
`load` reset the table to empty (no partial table, no exception) and leave
the file as it was; content that does not decode as UTF-8 instead raises
`UnicodeDecodeError`, which `except (json.JSONDecodeError, IOError)` does
not catch, so the exception reaches the caller and the table is left
unchanged; when the file is absent, `load` keeps the table and creates the
file by saving it. -/
theorem load_failure_resets_amended :
    (∀ (m : Manager) (fs : FS) (c : FileContent) (we : Bool), fs.file = some c →
       (load m fs true we).manager.commands = [] ∧ (load m fs true we).fs = fs ∧
       (load m fs true we).raised = false) ∧
    (∀ (m : Manager) (fs : FS) (we : Bool), fs.file = some FileContent.invalid →
       (load m fs false we).manager.commands = [] ∧ (load m fs false we).fs = fs ∧
       (load m fs false we).raised = false) ∧
    (∀ (m : Manager) (fs : FS) (we : Bool), fs.file = some FileContent.notUtf8 →
       (load m fs false we).manager.commands = m.commands ∧
       (load m fs false we).fs = fs ∧
       (load m fs false we).raised = true) ∧
    (∀ (m : Manager) (fs : FS) (re we : Bool), fs.file = none →
       (load m fs re we).manager.commands = m.commands ∧
       (load m fs re we).raised = false ∧
       (load m fs re false).fs.file = some (FileContent.table m.commands)) := by
  refine ⟨fun m fs c we h => ?_, fun m fs we h => ?_, fun m fs we h => ?_,
    fun m fs re we h => ?_⟩
  · simp [load, h]
  · simp [load, h]
  · simp [load, h]
  · simp [load, h, save]

theorem load_failure_resets_amended_witness :
    (FS.mk (some FileContent.invalid)).file = some FileContent.invalid ∧
    (load (Manager.mk [("a", "1")] false) (FS.mk (some FileContent.invalid))
        false false).manager.commands = [] ∧
    (load (Manager.mk [("a", "1")] false) (FS.mk (some FileContent.invalid))
        false false).fs = FS.mk (some FileContent.invalid) ∧
    (load (Manager.mk [("a", "1")] false) (FS.mk (some FileContent.invalid))
        false false).raised = false :=
  ⟨rfl, load_failure_resets_amended.2.1 (Manager.mk [("a", "1")] false)
    (FS.mk (some FileContent.invalid)) false rfl⟩

/-- C5: `delete` returns true iff the trigger is a key of the table before
the call; on an absent trigger the manager state and the file are exactly
unchanged and no save happens, so a second delete of the same absent
trigger again returns false without mutating anything. -/
theorem delete_iff_present :
    (∀ (m : Manager) (fs : FS) (io : Bool) (t : String),
       (delete m fs io t).2.2 = true ↔ hasKey m.commands t = true) ∧
    (∀ (m : Manager) (fs : FS) (io : Bool) (t : String),
       hasKey m.commands t = false → delete m fs io t = (m, fs, false)) ∧
    (∀ (m : Manager) (fs : FS) (io : Bool) (t : String),
       hasKey m.commands t = false →
       delete (delete m fs io t).1 (delete m fs io t).2.1 io t = (m, fs, false)) := by
  have habs : ∀ (m : Manager) (fs : FS) (io : Bool) (t : String),
      hasKey m.commands t = false → delete m fs io t = (m, fs, false) := by
    intro m fs io t h
    simp [delete, h]
  refine ⟨fun m fs io t => ?_, habs, fun m fs io t h => ?_⟩
  · by_cases hk : hasKey m.commands t
    · simp [delete, hk]
    · simp [delete, hk]
  · rw [habs m fs io t h]
    exact habs m fs io t h

theorem delete_iff_present_witness :
    hasKey [("a", "1")] "b" = false ∧
    delete (Manager.mk [("a", "1")] true) (FS.mk none) false "b"
      = (Manager.mk [("a", "1")] true, FS.mk none, false) :=
  ⟨by decide, delete_iff_present.2.1 (Manager.mk [("a", "1")] true)
    (FS.mk none) false "b" (by decide)⟩

/-- C7: with the path set and no I/O error, saving a table `T` and loading
it back yields a table with the same key → value mapping as `T` (the model
file stores the decoded JSON object itself, so the table is recovered
exactly). -/
theorem save_load_roundtrip :
    ∀ (T : List (String × String)) (m : Manager) (fs : FS) (k : String),
      tableGet ((load m (save (Manager.mk T true) fs false)
          false false).manager.commands) k = tableGet T k ∧
      (load m (save (Manager.mk T true) fs false) false false).raised = false := by
  intro T m fs k
  simp [save, load]

theorem dropMarker_eq_some :
    ∀ (l r : List Char), dropMarker l = some r → l = marker ++ r
  | [], r, h => by simp [dropMarker] at h
  | [a], r, h => by simp [dropMarker] at h
  | a :: b :: rest, r, h => by
    simp only [dropMarker] at h
    by_cases hab : a = '答' ∧ b = '：'
    · rw [if_pos hab] at h
      injection h with h
      rw [marker, hab.1, hab.2, h]
      rfl
    · rw [if_neg hab] at h
      cases h

theorem dropMarker_marker_append (x : List Char) :
    dropMarker (marker ++ x) = some x := by
  simp [dropMarker, marker]

theorem validResp_all (r : List Char) (h : validResp r = true) :
    r.all dotChar = true := by
  simp only [validResp, Bool.and_eq_true] at h
  exact h.2

theorem matchBody_sound :
    ∀ (l t r : List Char), matchBody l = some (t, r) →
      l = t ++ marker ++ r ∧ t ≠ [] ∧ t.all dotChar = true ∧
        validResp r = true := by
  intro l
  induction l with
  | nil => intro t r h; simp [matchBody] at h
  | cons c rest ih =>
    intro t r h
    rw [matchBody] at h
    by_cases hc : dotChar c
    · rw [if_pos hc] at h
      cases hd : dropMarker rest with
      | some resp =>
        simp only [hd] at h
        by_cases hv : validResp resp
        · rw [if_pos hv] at h
          simp only [Option.some.injEq, Prod.mk.injEq] at h
          obtain ⟨rfl, rfl⟩ := h
          refine ⟨?_, by simp, by simp [hc], hv⟩
          rw [dropMarker_eq_some rest resp hd]
          rfl
        · rw [if_neg hv] at h
          cases hrec : matchBody rest with
          | none => simp [hrec] at h
          | some tr =>
            obtain ⟨t₀, r₀⟩ := tr
            simp only [hrec, Option.map_some', Option.some.injEq,
              Prod.mk.injEq] at h
            obtain ⟨rfl, rfl⟩ := h
            obtain ⟨h1, h2, h3, h4⟩ := ih t₀ r₀ hrec
            refine ⟨by rw [h1]; rfl, by simp, by simp [h3, hc], h4⟩
      | none =>
        simp only [hd] at h
        cases hrec : matchBody rest with
        | none => simp [hrec] at h
        | some tr =>
          obtain ⟨t₀, r₀⟩ := tr
          simp only [hrec, Option.map_some', Option.some.injEq,
            Prod.mk.injEq] at h
          obtain ⟨rfl, rfl⟩ := h
          obtain ⟨h1, h2, h3, h4⟩ := ih t₀ r₀ hrec
          refine ⟨by rw [h1]; rfl, by simp, by simp [h3, hc], h4⟩
    · rw [if_neg hc] at h
      cases h

theorem marker_all_dotChar : marker.all dotChar = true := by decide

theorem matchBody_min :
    ∀ (l t r : List Char), matchBody l = some (t, r) →
      ∀ t₂ r₂, l = t₂ ++ marker ++ r₂ → t₂ ≠ [] → t.length ≤ t₂.length := by
  intro l
  induction l with
  | nil => intro t r h; simp [matchBody] at h
  | cons c rest ih =>
    intro t r h t₂ r₂ hl ht₂
    cases t₂ with
    | nil => exact absurd rfl ht₂
    | cons c₂ t₂' =>
      have hrest : rest = t₂' ++ marker ++ r₂ := by
        rw [List.cons_append, List.cons_append] at hl
        exact (List.cons.injEq c rest c₂ (t₂' ++ marker ++ r₂) ▸ hl).2
      rw [matchBody] at h
      by_cases hc : dotChar c
      · rw [if_pos hc] at h
        cases hd : dropMarker rest with
        | some resp =>
          simp only [hd] at h
          by_cases hv : validResp resp
          · rw [if_pos hv] at h
            simp only [Option.some.injEq, Prod.mk.injEq] at h
            obtain ⟨rfl, rfl⟩ := h
            simp
          · rw [if_neg hv] at h
            cases hrec : matchBody rest with
            | none => simp [hrec] at h
            | some tr =>
              obtain ⟨t₀, r₀⟩ := tr
              simp only [hrec, Option.map_some', Option.some.injEq,
                Prod.mk.injEq] at h
              obtain ⟨rfl, rfl⟩ := h
              cases t₂' with
              | nil =>
                exfalso
                rw [List.nil_append] at hrest
                have hresp : resp = r₂ := by
                  rw [hrest, dropMarker_marker_append r₂] at hd
                  exact (Option.some.injEq .. ▸ hd).symm
                obtain ⟨h1, h2, h3, h4⟩ := matchBody_sound rest t₀ r₀ hrec
                have hall : rest.all dotChar = true := by
                  rw [h1]
                  simp [List.all_append, h3, marker_all_dotChar,
                    validResp_all r₀ h4]
                have hr₂all : r₂.all dotChar = true := by
                  rw [hrest, List.all_append, Bool.and_eq_true] at hall
                  exact hall.2
                have hr₂ne : r₂ ≠ [] := by
                  intro hnil
                  rw [hnil, List.append_nil] at hrest
                  have hlen := congrArg List.length hrest
                  rw [h1] at hlen
                  simp only [List.length_append, marker, List.length_cons,
                    List.length_nil] at hlen
                  have ht₀ : 0 < t₀.length := List.length_pos.2 h2
                  omega
                have : validResp r₂ = true := by
                  simp [validResp, hr₂all, List.isEmpty_iff, hr₂ne]
                rw [hresp] at hv
                exact hv this
              | cons d t₂'' =>
                have := ih t₀ r₀ hrec (d :: t₂'') r₂ hrest (by simp)
                simpa using Nat.succ_le_succ this
        | none =>
          simp only [hd] at h
          cases hrec : matchBody rest with
          | none => simp [hrec] at h
          | some tr =>
            obtain ⟨t₀, r₀⟩ := tr
            simp only [hrec, Option.map_some', Option.some.injEq,
              Prod.mk.injEq] at h
            obtain ⟨rfl, rfl⟩ := h
            cases t₂' with
            | nil =>
              exfalso
              rw [List.nil_append] at hrest
              rw [hrest, dropMarker_marker_append r₂] at hd
              cases hd
            | cons d t₂'' =>
              have := ih t₀ r₀ hrec (d :: t₂'') r₂ hrest (by simp)
              simpa using Nat.succ_le_succ this
      · rw [if_neg hc] at h
        cases h

theorem addPatternMatch_eq (pfx body : List Char) :
    addPatternMatch pfx (pfx ++ '问' :: '：' :: body) = matchBody body := by
  rw [addPatternMatch, List.take_left, if_pos rfl, List.drop_left]
  simp

/-- C2: for an input matching the Add grammar whose part after the `问：`
marker holds more than one occurrence of `答：`, the pattern splits the
input at the first `答：` that leaves a non-empty trigger before it: the
trigger capture is the shortest possible non-empty one, and the response
capture is everything after that `答：` to the end of the input. -/
theorem addPattern_lazy_split (pfx body t r : List Char)
    (h : addPatternMatch pfx (pfx ++ '问' :: '：' :: body) = some (t, r))
    (_hcount : 1 < markerCount body) :
    body = t ++ marker ++ r ∧ t ≠ [] ∧
      (∀ t₂ r₂, body = t₂ ++ marker ++ r₂ → t₂ ≠ [] → t.length ≤ t₂.length) := by
  rw [addPatternMatch_eq] at h
  obtain ⟨h1, h2, -, -⟩ := matchBody_sound body t r h
  exact ⟨h1, h2, fun t₂ r₂ he hne => matchBody_min body t r h t₂ r₂ he hne⟩

theorem addPattern_lazy_split_witness :
    "a答：b答：c".toList = "a".toList ++ marker ++ "b答：c".toList ∧
    "a".toList ≠ [] ∧
    (∀ t₂ r₂, "a答：b答：c".toList = t₂ ++ marker ++ r₂ → t₂ ≠ [] →
       ("a".toList).length ≤ t₂.length) :=
  addPattern_lazy_split ".".toList "a答：b答：c".toList "a".toList
    "b答：c".toList (by decide) (by decide)

/-- C6: `add` is an upsert — on any table whose keys are unique (the
invariant of every Python-dict-reachable state), adding the same trigger
twice leaves exactly one entry for it, holding the latest response. -/
theorem add_upsert (m : Manager) (fs : FS) (io₁ io₂ : Bool) (t r₁ r₂ : String)
    (hnd : (m.commands.map Prod.fst).Nodup) :
    ((add (add m fs io₁ t r₁).1 (add m fs io₁ t r₁).2 io₂ t r₂).1.commands.countP
        (fun p => p.1 == t)) = 1 ∧
    tableGet ((add (add m fs io₁ t r₁).1 (add m fs io₁ t r₁).2 io₂ t r₂).1.commands) t
      = some r₂ := by
  have hcs : (add (add m fs io₁ t r₁).1 (add m fs io₁ t r₁).2 io₂ t r₂).1.commands
      = dictInsert (dictInsert m.commands t r₁) t r₂ := by
    simp [add]
  rw [hcs]
  exact ⟨countP_dictInsert _ t r₂ (nodup_keys_dictInsert m.commands t r₁ hnd),
    tableGet_dictInsert _ t r₂⟩

theorem add_upsert_witness :
    (([("a", "1")] : List (String × String)).map Prod.fst).Nodup ∧
    ((add (add (Manager.mk [("a", "1")] true) (FS.mk none) false "b" "x").1
        (add (Manager.mk [("a", "1")] true) (FS.mk none) false "b" "x").2
        false "b" "y").1.commands.countP (fun p => p.1 == "b")) = 1 ∧
    tableGet ((add (add (Manager.mk [("a", "1")] true) (FS.mk none) false "b" "x").1
        (add (Manager.mk [("a", "1")] true) (FS.mk none) false "b" "x").2
        false "b" "y").1.commands) "b" = some "y" :=
  ⟨by decide, add_upsert (Manager.mk [("a", "1")] true) (FS.mk none)
    false false "b" "x" "y" (by decide)⟩

/-- C1: the admin check is true iff the allow-list is non-empty and
contains the caller; with the empty allow-list every Add and every Delete
is rejected with the permission-error reply, fails, and leaves the whole
state (in particular the trigger table) untouched; List and Handle-dynamic
run without any permission check — List always succeeds and Handle-dynamic
succeeds on any present (text) trigger for every caller configuration. -/
theorem admin_gate :
    (∀ (ids : List String) (uid : String),
       isAdmin ids uid = true ↔ (ids ≠ [] ∧ uid ∈ ids)) ∧
    (∀ (uid tg rg sid : String) (st : PState) (io : Bool),
       (addExecute [] uid tg rg sid st io).1 = st ∧
       (addExecute [] uid tg rg sid st io).2.1.success = false ∧
       (addExecute [] uid tg rg sid st io).2.2
         = [Sent.text "❌ 你没有权限执行此管理员命令"]) ∧
    (∀ (uid tg sid : String) (st : PState) (io : Bool),
       (deleteExecute [] uid tg sid st io).1 = st ∧
       (deleteExecute [] uid tg sid st io).2.1.success = false ∧
       (deleteExecute [] uid tg sid st io).2.2
         = [Sent.text "❌ 你没有权限执行此管理员命令"]) ∧
    (∀ (pfx bn sid : String) (st : PState),
       (listExecute pfx bn sid st).2.1.success = true) ∧
    (∀ (tg sid b64 dir : String) (ie so : Bool) (st : PState) (v : String),
       tableGet st.manager.commands (strTrim tg) = some v → isImageRef v = false →
       (handleExecute tg sid ie b64 so dir st).2.1.success = true) := by
  refine ⟨fun ids uid => ?_, fun uid tg rg sid st io => ?_,
    fun uid tg sid st io => ?_, fun pfx bn sid st => ?_,
    fun tg sid b64 dir ie so st v h1 h2 => ?_⟩
  · simp [isAdmin, List.isEmpty_iff, and_comm]
  · simp [addExecute, isAdmin]
  · simp [deleteExecute, isAdmin]
  · simp [listExecute]
  · simp [handleExecute, h1, h2]

theorem admin_gate_witness :
    tableGet (PState.mk (Manager.mk [("hi", "hello")] true) ∅
        (FS.mk none)).manager.commands (strTrim "hi") = some "hello" ∧
    isImageRef "hello" = false ∧
    (handleExecute "hi" "s1" false "" true "d"
        (PState.mk (Manager.mk [("hi", "hello")] true) ∅
          (FS.mk none))).2.1.success = true :=
  ⟨by decide, by decide,
    admin_gate.2.2.2.2 "hi" "s1" "" "d" false true
      (PState.mk (Manager.mk [("hi", "hello")] true) ∅ (FS.mk none)) "hello"
      (by decide) (by decide)⟩

/-- C3: a stored response is classified as an image reference iff its
lowercased form ends with one of exactly `.png`, `.jpg`, `.jpeg`, `.gif`,
`.webp`; `cat.png` and `CAT.PNG` are image, `cat.png.txt` and
`hello world` are text, and a text-classified response is delivered
verbatim as a single text reply. -/
theorem image_classification :
    (∀ s : String, isImageRef s = true ↔
       (strEndsWith (strLower s) ".png" = true ∨ strEndsWith (strLower s) ".jpg" = true ∨
        strEndsWith (strLower s) ".jpeg" = true ∨ strEndsWith (strLower s) ".gif" = true ∨
        strEndsWith (strLower s) ".webp" = true)) ∧
    isImageRef "cat.png" = true ∧ isImageRef "CAT.PNG" = true ∧
    isImageRef "cat.png.txt" = false ∧ isImageRef "hello world" = false ∧
    (∀ (tg sid b64 dir : String) (ie so : Bool) (st : PState) (v : String),
       tableGet st.manager.commands (strTrim tg) = some v → isImageRef v = false →
       (handleExecute tg sid ie b64 so dir st).2.2 = [Sent.text v]) := by
  refine ⟨fun s => ?_, by decide, by decide, by decide, by decide,
    fun tg sid b64 dir ie so st v h1 h2 => ?_⟩
  · simp [isImageRef, imageExtensions, or_assoc]
  · simp [handleExecute, h1, h2]

theorem image_classification_witness :
    tableGet (PState.mk (Manager.mk [("t", "hello world")] true) ∅
        (FS.mk none)).manager.commands (strTrim "t") = some "hello world" ∧
    isImageRef "hello world" = false ∧
    (handleExecute "t" "s1" false "" true "d"
        (PState.mk (Manager.mk [("t", "hello world")] true) ∅
          (FS.mk none))).2.2 = [Sent.text "hello world"] :=
  ⟨by decide, by decide,
    image_classification.2.2.2.2.2 "t" "s1" "" "d" false true
      (PState.mk (Manager.mk [("t", "hello world")] true) ∅ (FS.mk none))
      "hello world" (by decide) (by decide)⟩

/-- C9: Handle-dynamic on an absent (stripped) trigger fails with
`consumed = false` and sends nothing; on a present image reference whose
file does not exist it sends the configuration-error text and fails with
`consumed = true`; on a delivered reply (text, or image with existing file
and a successful send) it succeeds with `consumed = true`. -/
theorem handle_dynamic_results :
    (∀ (tg sid b64 dir : String) (ie so : Bool) (st : PState),
       tableGet st.manager.commands (strTrim tg) = none →
       handleExecute tg sid ie b64 so dir st
         = (st, CmdResult.mk false (some "非自定义命令，跳过") false, [])) ∧
    (∀ (tg sid b64 dir : String) (so : Bool) (st : PState) (v : String),
       tableGet st.manager.commands (strTrim tg) = some v → isImageRef v = true →
       (handleExecute tg sid false b64 so dir st).2.1.success = false ∧
       (handleExecute tg sid false b64 so dir st).2.1.consumed = true ∧
       (handleExecute tg sid false b64 so dir st).2.2
         = [Sent.text ("❌ 配置错误：在 \x27" ++ dir ++ "\x27 目录中找不到图片 \x27"
             ++ v ++ "\x27")]) ∧
    (∀ (tg sid b64 dir : String) (ie so : Bool) (st : PState) (v : String),
       tableGet st.manager.commands (strTrim tg) = some v → isImageRef v = false →
       (handleExecute tg sid ie b64 so dir st).2.1.success = true ∧
       (handleExecute tg sid ie b64 so dir st).2.1.consumed = true ∧
       (handleExecute tg sid ie b64 so dir st).2.2 = [Sent.text v]) ∧
    (∀ (tg sid b64 dir : String) (st : PState) (v : String),
       tableGet st.manager.commands (strTrim tg) = some v → isImageRef v = true →
       (handleExecute tg sid true b64 true dir st).2.1.success = true ∧
       (handleExecute tg sid true b64 true dir st).2.1.consumed = true ∧
       (handleExecute tg sid true b64 true dir st).2.2 = [Sent.image b64]) := by
  refine ⟨fun tg sid b64 dir ie so st h => ?_,
    fun tg sid b64 dir so st v h1 h2 => ?_,
    fun tg sid b64 dir ie so st v h1 h2 => ?_,
    fun tg sid b64 dir st v h1 h2 => ?_⟩
  · simp [handleExecute, h]
  · simp [handleExecute, h1, h2]
  · simp [handleExecute, h1, h2]
  · simp [handleExecute, h1, h2]

theorem handle_dynamic_results_witness :
    tableGet (PState.mk (Manager.mk [] false) ∅ (FS.mk none)).manager.commands
        (strTrim "x") = none ∧
    handleExecute "x" "s1" false "" true "d"
        (PState.mk (Manager.mk [] false) ∅ (FS.mk none))
      = (PState.mk (Manager.mk [] false) ∅ (FS.mk none),
         CmdResult.mk false (some "非自定义命令，跳过") false, []) :=
  ⟨by decide,
    handle_dynamic_results.1 "x" "s1" "" "d" false true
      (PState.mk (Manager.mk [] false) ∅ (FS.mk none)) (by decide)⟩

end CustomCommands
